import Mathlib

/-!
Verification of the data cleaning → aggregation → classification pipeline of
the performance-monitoring dashboard (src/app/dashboard.py).

The pipeline is embedded shallowly:
* a raw table is a list of column names plus a list of rows, a cell being
  either a timestamp value (epoch seconds, the result of a successful
  `pd.to_datetime`), an arbitrary string, or a blank (NaN / unparseable,
  what `errors="coerce"` turns into NaT);
* metric arithmetic is over ℚ (the code's float comparisons at the fixed
  thresholds are exact);
* the process-wide random fallbacks (`np.random.uniform`, `np.random.choice`)
  are modelled as oracle parameters `rngP : Nat → ℚ` and `rngE : Nat → Bool`
  indexed by the row's position among the surviving rows;
* the two ways a run can raise are `missingTimestampColumn`
  (`st.error` + `st.stop` when no column name contains "date") and
  `indexError` (`.iloc[0]` on an empty selection).
-/

/-- A cell of the raw table: a value that parses as a timestamp
(epoch seconds), a plain string, or a blank/unparseable value. -/
inductive Cell where
  | ts (t : Int)
  | text (s : String)
  | blank
deriving DecidableEq, Repr

/-- `pd.to_datetime(·, errors="coerce")` on one cell: a timestamp value
parses to itself, everything else coerces to NaT (`none`). -/
def parseTs : Cell → Option Int
  | .ts t => some t
  | .text _ => none
  | .blank => none

/-- Prefix test on character lists. -/
def charsStart : List Char → List Char → Bool
  | [], _ => true
  | _ :: _, [] => false
  | p :: ps, c :: cs => p == c && charsStart ps cs

/-- Substring test on character lists. -/
def charsHave (pat : List Char) : List Char → Bool
  | [] => charsStart pat []
  | c :: cs => charsStart pat (c :: cs) || charsHave pat cs

/-- `str.lower()`: lower-case every character. -/
def lowerStr (s : String) : String := ⟨s.data.map Char.toLower⟩

/-- `"date" in col.lower()` — the column name contains the substring
"date", case-insensitively. -/
def containsDate (c : String) : Bool :=
  charsHave "date".data (lowerStr c).data

/-- The raw tabular input: declared column names and rows of cells. -/
structure RawTable where
  cols : List String
  rows : List (List Cell)

/-- Position of a column name in the declared column order. -/
def colIdx : List String → String → Option Nat
  | [], _ => none
  | c2 :: rest, c => if c2 = c then some 0 else (colIdx rest c).map (· + 1)

/-- The cell of `row` under column `c` (blank when the column is absent or
the row is short). -/
def getCell (cols : List String) (row : List Cell) (c : String) : Cell :=
  match colIdx cols c with
  | some i => row.getD i .blank
  | none => .blank

/-- The first column whose name contains "date" (case-insensitive), in
declared order — the loop `for col in df.columns: if "date" in col.lower()`. -/
def dateCol (t : RawTable) : Option String :=
  t.cols.find? containsDate

/-- `df["date"] = df[date_col].dt.date`: the calendar day of an epoch-seconds
timestamp (floor division by 86400). -/
def dayOf (t : Int) : Int := Int.fdiv t 86400

/-- One row after normalization: its event date, its processing time in
minutes (`none` = NaN, an unparseable secondary timestamp), and its
error flag. -/
structure NormRow where
  eventDate : Int
  procTime : Option ℚ
  isError : Bool
deriving DecidableEq, Repr

/-- `df["status"].str.lower().isin(["open", "pending"])` on one cell;
non-string cells give NaN under `.str`, hence `false`. -/
def statusErr : Cell → Bool
  | .text s => (["open", "pending"]).contains (lowerStr s)
  | _ => false

/-- `(df["resolved_date"] - pd.to_datetime(df[date_col])).dt.total_seconds()/60`
for one surviving row whose parsed primary timestamp is `ts`: the signed
difference in minutes when the secondary parses, NaN otherwise. -/
def diffOf (cols : List String) (row : List Cell) (ts : Int) : Option ℚ :=
  (parseTs (getCell cols row "resolved_date")).map
    (fun t2 => ((t2 - ts : Int) : ℚ) / 60)

/-- Rows surviving `df.dropna(subset=[date_col])`, each paired with its
parsed primary timestamp, in input order. -/
def parsedRows (t : RawTable) (dc : String) : List (List Cell × Int) :=
  t.rows.filterMap (fun row => (parseTs (getCell t.cols row dc)).map (fun ts => (row, ts)))

/-- Normalization of one surviving row at position `i` among the survivors:
event date from the primary timestamp; processing time from the
`resolved_date` column when it exists, else from the uniform fallback;
error flag from the `status` column when it exists, else from the Bernoulli
fallback. -/
def mkNorm (cols : List String) (rngP : Nat → ℚ) (rngE : Nat → Bool)
    (i : Nat) (row : List Cell) (ts : Int) : NormRow :=
  { eventDate := dayOf ts
    procTime :=
      if cols.contains "resolved_date" then diffOf cols row ts
      else some (rngP i)
    isError :=
      if cols.contains "status" then statusErr (getCell cols row "status")
      else rngE i }

/-- Normalize the surviving rows starting at survivor index `i`. -/
def normFrom (cols : List String) (rngP : Nat → ℚ) (rngE : Nat → Bool) :
    Nat → List (List Cell × Int) → List NormRow
  | _, [] => []
  | i, (row, ts) :: rest =>
      mkNorm cols rngP rngE i row ts :: normFrom cols rngP rngE (i + 1) rest

/-- The Normalizer: parse the primary column, drop unparseable rows, and
derive per-row processing time and error flag. -/
def normalizeRows (t : RawTable) (dc : String) (rngP : Nat → ℚ) (rngE : Nat → Bool) :
    List NormRow :=
  normFrom t.cols rngP rngE 0 (parsedRows t dc)

/-- Insert a date into an ascending duplicate-free list of dates, keeping it
ascending and duplicate-free (the sorted unique group keys of `groupby`). -/
def insertDate (d : Int) : List Int → List Int
  | [] => [d]
  | x :: xs =>
      if d < x then d :: x :: xs
      else if d = x then x :: xs
      else x :: insertDate d xs

/-- The ascending list of distinct event dates of a normalized set —
the group keys of `df.groupby("date")`. -/
def datesOf (rows : List NormRow) : List Int :=
  rows.foldl (fun acc r => insertDate r.eventDate acc) []

/-- One aggregated day, before classification: the columns of `daily`. -/
structure DailyRow where
  date : Int
  dailyTickets : Nat
  avgProcessingTime : Option ℚ
  errorRate : ℚ
deriving DecidableEq, Repr

/-- Pandas mean with NaN-skipping already applied: the arithmetic mean of a
list of defined values, NaN (`none`) when the list is empty. -/
def meanOpt (l : List ℚ) : Option ℚ :=
  if l.isEmpty then none else some (l.sum / (l.length : ℚ))

/-- The aggregation of one date's group:
`daily_tickets=("date","count")`, `avg_processing_time=("processing_time","mean")`
(NaN-skipping), `error_rate=("is_error","mean")` then `* 100`. -/
def aggRow (rows : List NormRow) (d : Int) : DailyRow :=
  let g := rows.filter (fun r => r.eventDate == d)
  { date := d
    dailyTickets := g.length
    avgProcessingTime := meanOpt (g.filterMap (fun r => r.procTime))
    errorRate := ((g.countP (fun r => r.isError) : ℚ) / (g.length : ℚ)) * 100 }

/-- The Aggregator: one `DailyRow` per distinct date, ascending by date
(the order `groupby` + `sort_values("date")` produces). -/
def dailyOf (rows : List NormRow) : List DailyRow :=
  (datesOf rows).map (aggRow rows)

/-- `.tail(n)` of a dataframe: the last `n` entries (all of them when fewer
exist). -/
def tailN (n : Nat) (l : List α) : List α := l.drop (l.length - n)

/-- The three health labels. -/
inductive StatusLabel where
  | onTrack
  | monitoring
  | actionRequired
deriving DecidableEq, Repr

/-- `avg > 8`-style comparison where the left side may be NaN: in Python a
comparison with NaN is `False`. -/
def gtOpt (a : Option ℚ) (b : ℚ) : Bool :=
  match a with
  | some q => decide (b < q)
  | none => false

/-- The Classifier `classify(row)`: `error_rate > 5 or avg_processing_time > 8`
→ Action Required, else `error_rate > 2` → Monitoring, else On Track. -/
def classify (r : DailyRow) : StatusLabel :=
  if (decide (5 < r.errorRate) || gtOpt r.avgProcessingTime 8) = true then .actionRequired
  else if 2 < r.errorRate then .monitoring
  else .onTrack

/-- The ways a run can raise: the surfaced missing-timestamp stop, and the
bare `IndexError` of `.iloc[0]` on an empty selection. -/
inductive PError where
  | missingTimestampColumn
  | indexError
deriving DecidableEq, Repr

instance {e a : Type} [DecidableEq e] [DecidableEq a] : DecidableEq (Except e a) :=
  fun x y =>
    match x, y with
    | .error e1, .error e2 =>
        if h : e1 = e2 then .isTrue (by rw [h]) else .isFalse (by simp [h])
    | .error _, .ok _ => .isFalse (by simp)
    | .ok _, .error _ => .isFalse (by simp)
    | .ok a1, .ok a2 =>
        if h : a1 = a2 then .isTrue (by rw [h]) else .isFalse (by simp [h])

/-- The full pipeline: resolve the date column (stop when none), normalize,
aggregate, window to the last `viewDays` days, classify each remaining day. -/
def pipeline (t : RawTable) (viewDays : Nat) (rngP : Nat → ℚ) (rngE : Nat → Bool) :
    Except PError (List (DailyRow × StatusLabel)) :=
  match dateCol t with
  | none => .error .missingTimestampColumn
  | some dc =>
      let daily := dailyOf (normalizeRows t dc rngP rngE)
      .ok ((tailN viewDays daily).map (fun r => (r, classify r)))

/-- `str(date)` as selection key: the string form of the day number
(injective, which is all the lookup uses). -/
def dateStr (d : Int) : String := toString d

/-- `daily[daily["date"].astype(str) == selected_date].iloc[0]`: the first
row whose date's string form equals the selected key; `IndexError` when the
selection is empty. -/
def selectedRow (daily : List (DailyRow × StatusLabel)) (sel : String) :
    Except PError (DailyRow × StatusLabel) :=
  match daily.filter (fun r => dateStr r.1.date == sel) with
  | [] => .error .indexError
  | r :: _ => .ok r

/-! ### Helper lemmas: sorted distinct date keys -/

theorem mem_insertDate (a d : Int) (l : List Int) :
    a ∈ insertDate d l ↔ a = d ∨ a ∈ l := by
  induction l with
  | nil => simp [insertDate]
  | cons x xs ih =>
      by_cases h1 : d < x
      · simp [insertDate, h1]
      · by_cases h2 : d = x
        · subst h2
          simp [insertDate, h1]
        · simp [insertDate, h1, h2, ih]
          tauto

theorem pairwise_insertDate (d : Int) (l : List Int)
    (h : l.Pairwise (· < ·)) : (insertDate d l).Pairwise (· < ·) := by
  induction l with
  | nil => simp [insertDate]
  | cons x xs ih =>
      rw [List.pairwise_cons] at h
      by_cases h1 : d < x
      · rw [insertDate]
        simp only [if_pos h1]
        refine List.Pairwise.cons ?_ (List.Pairwise.cons h.1 h.2)
        intro b hb
        rw [List.mem_cons] at hb
        rcases hb with hb | hb
        · exact hb ▸ h1
        · exact lt_trans h1 (h.1 b hb)
      · by_cases h2 : d = x
        · rw [insertDate]
          simp only [if_neg h1, if_pos h2]
          exact List.Pairwise.cons h.1 h.2
        · rw [insertDate]
          simp only [if_neg h1, if_neg h2]
          refine List.Pairwise.cons ?_ (ih h.2)
          intro b hb
          rw [mem_insertDate] at hb
          rcases hb with hb | hb
          · subst hb
            omega
          · exact h.1 b hb

theorem datesOf_fold_pairwise (rows : List NormRow) (acc : List Int)
    (h : acc.Pairwise (· < ·)) :
    (rows.foldl (fun acc r => insertDate r.eventDate acc) acc).Pairwise (· < ·) := by
  induction rows generalizing acc with
  | nil => exact h
  | cons r rest ih => exact ih _ (pairwise_insertDate _ _ h)

/-- The distinct-date keys of the aggregation are strictly ascending. -/
theorem datesOf_pairwise (rows : List NormRow) :
    (datesOf rows).Pairwise (· < ·) :=
  datesOf_fold_pairwise rows [] List.Pairwise.nil

theorem mem_datesOf_fold (d : Int) (rows : List NormRow) (acc : List Int) :
    d ∈ rows.foldl (fun acc r => insertDate r.eventDate acc) acc ↔
      d ∈ acc ∨ ∃ r ∈ rows, r.eventDate = d := by
  induction rows generalizing acc with
  | nil => simp
  | cons r rest ih =>
      simp only [List.foldl_cons, ih, mem_insertDate]
      constructor
      · rintro ((h | h) | h)
        · exact Or.inr ⟨r, by simp, h.symm⟩
        · exact Or.inl h
        · rcases h with ⟨r2, hr2, he⟩
          exact Or.inr ⟨r2, by simp [hr2], he⟩
      · rintro (h | ⟨r2, hr2, he⟩)
        · exact Or.inl (Or.inr h)
        · rcases List.mem_cons.mp hr2 with h2 | h2
          · subst h2
            exact Or.inl (Or.inl he.symm)
          · exact Or.inr ⟨r2, h2, he⟩

/-- A date is a group key exactly when some normalized row has it. -/
theorem mem_datesOf (d : Int) (rows : List NormRow) :
    d ∈ datesOf rows ↔ ∃ r ∈ rows, r.eventDate = d := by
  rw [datesOf, mem_datesOf_fold]
  simp

/-! ### Helper lemmas: normalization -/

theorem mem_parsedRows (t : RawTable) (dc : String) (p : List Cell × Int)
    (h : p ∈ parsedRows t dc) :
    p.1 ∈ t.rows ∧ parseTs (getCell t.cols p.1 dc) = some p.2 := by
  rw [parsedRows, List.mem_filterMap] at h
  rcases h with ⟨row, hrow, hmap⟩
  rcases p with ⟨r, ts⟩
  cases hparse : parseTs (getCell t.cols row dc) with
  | none => rw [hparse] at hmap; simp at hmap
  | some v =>
      rw [hparse] at hmap
      simp at hmap
      obtain ⟨h1, h2⟩ := hmap
      subst h1; subst h2
      exact ⟨hrow, hparse⟩

theorem mem_normFrom (cols : List String) (rngP : Nat → ℚ) (rngE : Nat → Bool)
    (i : Nat) (l : List (List Cell × Int)) (nr : NormRow)
    (h : nr ∈ normFrom cols rngP rngE i l) :
    ∃ j p, p ∈ l ∧ nr = mkNorm cols rngP rngE j p.1 p.2 := by
  induction l generalizing i with
  | nil => simp [normFrom] at h
  | cons p rest ih =>
      rcases p with ⟨row, ts⟩
      rw [normFrom, List.mem_cons] at h
      rcases h with h | h
      · exact ⟨i, (row, ts), by simp, h⟩
      · rcases ih (i + 1) h with ⟨j, q, hq, he⟩
        exact ⟨j, q, by simp [hq], he⟩

theorem normFrom_map_eventDate (cols : List String) (rngP : Nat → ℚ)
    (rngE : Nat → Bool) (i : Nat) (l : List (List Cell × Int)) :
    (normFrom cols rngP rngE i l).map (fun r => r.eventDate) =
      l.map (fun p => dayOf p.2) := by
  induction l generalizing i with
  | nil => rfl
  | cons p rest ih =>
      rcases p with ⟨row, ts⟩
      simp [normFrom, mkNorm, ih]

theorem normFrom_rng_irrelevant (cols : List String)
    (rngP1 rngP2 : Nat → ℚ) (rngE1 rngE2 : Nat → Bool) (i j : Nat)
    (l : List (List Cell × Int))
    (hres : cols.contains "resolved_date" = true)
    (hst : cols.contains "status" = true) :
    normFrom cols rngP1 rngE1 i l = normFrom cols rngP2 rngE2 j l := by
  induction l generalizing i j with
  | nil => rfl
  | cons p rest ih =>
      rcases p with ⟨row, ts⟩
      rw [normFrom, normFrom, ih (i + 1) (j + 1)]
      have h1 : "resolved_date" ∈ cols := by simpa using hres
      have h2 : "status" ∈ cols := by simpa using hst
      simp [mkNorm, h1, h2]

theorem normFrom_filter_length (cols : List String) (rngP : Nat → ℚ)
    (rngE : Nat → Bool) (i : Nat) (l : List (List Cell × Int)) (d : Int) :
    ((normFrom cols rngP rngE i l).filter (fun r => r.eventDate == d)).length =
      (l.filter (fun p => dayOf p.2 == d)).length := by
  induction l generalizing i with
  | nil => rfl
  | cons p rest ih =>
      rcases p with ⟨row, ts⟩
      by_cases hd : dayOf ts = d
      · simp [normFrom, List.filter_cons, mkNorm, hd, ih]
      · simp [normFrom, List.filter_cons, mkNorm, hd, ih]

theorem normFrom_filter_procTime (cols : List String) (rngP : Nat → ℚ)
    (rngE : Nat → Bool) (i : Nat) (l : List (List Cell × Int)) (d : Int)
    (hres : cols.contains "resolved_date" = true) :
    ((normFrom cols rngP rngE i l).filter (fun r => r.eventDate == d)).filterMap
        (fun r => r.procTime) =
      (l.filter (fun p => dayOf p.2 == d)).filterMap
        (fun p => diffOf cols p.1 p.2) := by
  induction l generalizing i with
  | nil => rfl
  | cons p rest ih =>
      rcases p with ⟨row, ts⟩
      by_cases hd : dayOf ts = d
      · simp only [normFrom, List.filter_cons, mkNorm, hd]
        simp only [beq_self_eq_true, if_pos, hres, if_true, List.filterMap_cons]
        cases hdiff : diffOf cols row ts with
        | none => simp [hdiff, ih]
        | some q => simp [hdiff, ih]
      · simp only [normFrom, List.filter_cons, mkNorm]
        have : (dayOf ts == d) = false := by simp [hd]
        simp [this, ih]

theorem normFrom_filter_countP (cols : List String) (rngP : Nat → ℚ)
    (rngE : Nat → Bool) (i : Nat) (l : List (List Cell × Int)) (d : Int)
    (hst : cols.contains "status" = true) :
    ((normFrom cols rngP rngE i l).filter (fun r => r.eventDate == d)).countP
        (fun r => r.isError) =
      (l.filter (fun p => dayOf p.2 == d)).countP
        (fun p => statusErr (getCell cols p.1 "status")) := by
  induction l generalizing i with
  | nil => rfl
  | cons p rest ih =>
      rcases p with ⟨row, ts⟩
      by_cases hd : dayOf ts = d
      · have h2 : "status" ∈ cols := by simpa using hst
        simp only [normFrom, List.filter_cons, mkNorm, hd]
        simp [hst, h2, List.countP_cons, ih]
      · simp only [normFrom, List.filter_cons, mkNorm]
        have : (dayOf ts == d) = false := by simp [hd]
        simp [this, ih]

/-! ### Helper lemmas: windowing -/

theorem tailN_length (n : Nat) (l : List α) :
    (tailN n l).length = min n l.length := by
  rw [tailN, List.length_drop]
  omega

theorem tailN_tailN (n1 n2 : Nat) (l : List α) (h : n1 ≤ n2) :
    tailN n1 (tailN n2 l) = tailN n1 l := by
  rw [tailN, tailN, tailN, List.drop_drop, List.length_drop]
  congr 1
  omega

theorem tailN_map (n : Nat) (f : α → β) (l : List α) :
    tailN n (l.map f) = (tailN n l).map f := by
  rw [tailN, tailN, List.length_map]
  exact (List.map_drop _ _ _).symm

theorem tailN_all (n : Nat) (l : List α) (h : l.length ≤ n) :
    tailN n l = l := by
  rw [tailN, Nat.sub_eq_zero_of_le h, List.drop_zero]

theorem tailN_sublist (n : Nat) (l : List α) : (tailN n l).Sublist l :=
  List.drop_sublist _ _

/-! ### Helper lemmas: aggregation -/

theorem dailyOf_map_date (rows : List NormRow) :
    (dailyOf rows).map (fun r => r.date) = datesOf rows := by
  rw [dailyOf, List.map_map]
  have : ((fun r => r.date) ∘ aggRow rows) = id := by
    funext d
    rfl
  rw [this, List.map_id]

theorem mem_dailyOf (rows : List NormRow) (dr : DailyRow)
    (h : dr ∈ dailyOf rows) :
    dr = aggRow rows dr.date ∧ dr.date ∈ datesOf rows := by
  rw [dailyOf, List.mem_map] at h
  rcases h with ⟨d, hd, he⟩
  have hdate : dr.date = d := by rw [← he]; rfl
  constructor
  · rw [hdate, ← he]
  · rw [hdate]; exact hd

/-! ### Claims -/

/-- C1: the classifier returns ActionRequired iff `error_rate > 5` or
`avg_processing_time > 8` (strict comparisons, with `>` against a missing
average false), else Monitoring iff `error_rate > 2`, else OnTrack; so
error rate exactly 5 together with average exactly 8 is not ActionRequired,
error rate exactly 2 is OnTrack, and the ActionRequired rule takes
precedence over the Monitoring rule. -/
theorem C1_classifier_thresholds :
    (∀ r : DailyRow,
      (classify r = StatusLabel.actionRequired ↔
        5 < r.errorRate ∨ gtOpt r.avgProcessingTime 8 = true) ∧
      (classify r = StatusLabel.monitoring ↔
        ¬(5 < r.errorRate ∨ gtOpt r.avgProcessingTime 8 = true) ∧ 2 < r.errorRate) ∧
      (classify r = StatusLabel.onTrack ↔
        ¬(5 < r.errorRate ∨ gtOpt r.avgProcessingTime 8 = true) ∧ ¬2 < r.errorRate)) ∧
    (∀ q : ℚ, gtOpt (some q) 8 = true ↔ 8 < q) ∧
    classify { date := 0, dailyTickets := 1, avgProcessingTime := some 8,
               errorRate := 5 } ≠ StatusLabel.actionRequired ∧
    classify { date := 0, dailyTickets := 1, avgProcessingTime := some 0,
               errorRate := 2 } = StatusLabel.onTrack ∧
    classify { date := 0, dailyTickets := 1, avgProcessingTime := some 9,
               errorRate := 3 } = StatusLabel.actionRequired := by
  refine ⟨?_, ?_, by decide, by decide, by decide⟩
  · intro r
    unfold classify
    by_cases h1 : 5 < r.errorRate ∨ gtOpt r.avgProcessingTime 8 = true
    · have hb : (decide (5 < r.errorRate) || gtOpt r.avgProcessingTime 8) = true := by
        rcases h1 with h | h
        · simp [h]
        · simp [h]
      simp [hb, h1]
    · have hb : (decide (5 < r.errorRate) || gtOpt r.avgProcessingTime 8) = false := by
        rw [not_or] at h1
        simp [h1.1, h1.2]
      by_cases h2 : 2 < r.errorRate
      · simp [hb, h1, h2]
      · simp [hb, h1, h2]
  · intro q
    simp [gtOpt]

theorem find?_first {α : Type} {p : α → Bool} (l1 l2 : List α) (c : α)
    (hc : p c = true) (h : ∀ x ∈ l1, p x = false) :
    (l1 ++ c :: l2).find? p = some c := by
  induction l1 with
  | nil => simp [List.find?_cons_of_pos, hc]
  | cons a rest ih =>
      have ha : p a = false := h a (by simp)
      simp only [List.cons_append, List.find?, ha]
      exact ih (fun x hx => h x (by simp [hx]))

/-- C2: the pipeline fails with MissingTimestampColumn exactly when no
column name contains "date" case-insensitively; it then produces no
DailyMetrics, and otherwise it succeeds and the first "date"-containing
column in declared order is the primary timestamp column. -/
theorem C2_missing_timestamp_column (t : RawTable) (n : Nat)
    (rngP : Nat → ℚ) (rngE : Nat → Bool) :
    (pipeline t n rngP rngE = Except.error PError.missingTimestampColumn ↔
      ∀ c ∈ t.cols, containsDate c = false) ∧
    ((∃ c ∈ t.cols, containsDate c = true) →
      ∃ out, pipeline t n rngP rngE = Except.ok out) ∧
    (∀ l1 c l2, t.cols = l1 ++ c :: l2 → containsDate c = true →
      (∀ c2 ∈ l1, containsDate c2 = false) → dateCol t = some c) := by
  refine ⟨?_, ?_, ?_⟩
  · cases h : dateCol t with
    | none =>
        simp only [pipeline, h]
        rw [dateCol, List.find?_eq_none] at h
        constructor
        · intro _ c hc
          simpa using h c hc
        · intro _
          trivial
    | some dc =>
        have hmem := List.find?_some h
        have hc := List.mem_of_find?_eq_some h
        simp only [pipeline, h]
        constructor
        · intro habs
          exact absurd habs (by simp)
        · intro hall
          exact absurd (hall dc hc) (by simp [hmem])
  · rintro ⟨c, hc, hcd⟩
    cases h : dateCol t with
    | none =>
        rw [dateCol, List.find?_eq_none] at h
        exact absurd hcd (by simpa using h c hc)
    | some dc =>
        exact ⟨(tailN n (dailyOf (normalizeRows t dc rngP rngE))).map
          (fun r => (r, classify r)), by simp only [pipeline, h]⟩
  · intro l1 c l2 hcols hc hall
    rw [dateCol, hcols]
    exact find?_first l1 l2 c hc hall

/-- C3: a row whose primary-timestamp value does not parse is excluded from
normalization entirely — deleting it from the raw table changes neither the
normalized records nor the pipeline output, so it contributes to no day's
ticket count, average processing time, or error rate — and every surviving
record's event date comes from some row's successfully parsed primary
timestamp. -/
theorem C3_unparseable_rows_excluded (cols : List String) (dc : String)
    (pre post : List (List Cell)) (bad : List Cell)
    (n : Nat) (rngP : Nat → ℚ) (rngE : Nat → Bool)
    (hdc : dateCol { cols := cols, rows := pre ++ bad :: post } = some dc)
    (hbad : parseTs (getCell cols bad dc) = none) :
    normalizeRows { cols := cols, rows := pre ++ bad :: post } dc rngP rngE =
      normalizeRows { cols := cols, rows := pre ++ post } dc rngP rngE ∧
    pipeline { cols := cols, rows := pre ++ bad :: post } n rngP rngE =
      pipeline { cols := cols, rows := pre ++ post } n rngP rngE ∧
    (∀ nr ∈ normalizeRows { cols := cols, rows := pre ++ bad :: post } dc rngP rngE,
      ∃ row ∈ pre ++ bad :: post, ∃ ts2, parseTs (getCell cols row dc) = some ts2 ∧
        nr.eventDate = dayOf ts2) := by
  have hpr : parsedRows { cols := cols, rows := pre ++ bad :: post } dc =
      parsedRows { cols := cols, rows := pre ++ post } dc := by
    rw [parsedRows, parsedRows]
    simp only [List.filterMap_append, List.filterMap_cons, hbad]
    rfl
  have hnorm : normalizeRows { cols := cols, rows := pre ++ bad :: post } dc rngP rngE =
      normalizeRows { cols := cols, rows := pre ++ post } dc rngP rngE := by
    rw [normalizeRows, normalizeRows, hpr]
  refine ⟨hnorm, ?_, ?_⟩
  · have hdc2 : dateCol { cols := cols, rows := pre ++ post } = some dc := hdc
    simp only [pipeline, hdc, hdc2, hnorm]
  · intro nr hnr
    rw [normalizeRows] at hnr
    rcases mem_normFrom _ _ _ _ _ _ hnr with ⟨j, p, hp, he⟩
    have hparsed := mem_parsedRows _ _ _ hp
    exact ⟨p.1, hparsed.1, p.2, hparsed.2, by rw [he]; rfl⟩

/-- C4: with a `resolved_date` column present, each output day's ticket count
is the size of the full group of rows with a parsed primary timestamp on
that day, the error rate divides the group's error count by that full group
size, and the average processing time is the arithmetic mean over only the
group members whose secondary timestamp parses, each contributing the
signed, unclamped difference (secondary − primary) in minutes. -/
theorem C4_secondary_timestamp_policy (t : RawTable) (dc : String)
    (rngP : Nat → ℚ) (rngE : Nat → Bool)
    (hdc : dateCol t = some dc)
    (hres : t.cols.contains "resolved_date" = true) :
    ∀ dr ∈ dailyOf (normalizeRows t dc rngP rngE),
      dr.dailyTickets =
        ((parsedRows t dc).filter (fun p => dayOf p.2 == dr.date)).length ∧
      dr.avgProcessingTime =
        meanOpt (((parsedRows t dc).filter (fun p => dayOf p.2 == dr.date)).filterMap
          (fun p => diffOf t.cols p.1 p.2)) ∧
      dr.errorRate =
        ((((normalizeRows t dc rngP rngE).filter
            (fun r => r.eventDate == dr.date)).countP (fun r => r.isError) : ℚ) /
          (((parsedRows t dc).filter (fun p => dayOf p.2 == dr.date)).length : ℚ)) * 100 := by
  intro dr hdr
  rcases mem_dailyOf _ _ hdr with ⟨hagg, _⟩
  have hlen := normFrom_filter_length t.cols rngP rngE 0 (parsedRows t dc) dr.date
  have hpt := normFrom_filter_procTime t.cols rngP rngE 0 (parsedRows t dc) dr.date hres
  refine ⟨?_, ?_, ?_⟩
  · conv_lhs => rw [hagg]
    rw [aggRow]
    simp only [normalizeRows]
    exact hlen
  · conv_lhs => rw [hagg]
    rw [aggRow]
    simp only [normalizeRows]
    rw [hpt]
  · conv_lhs => rw [hagg]
    rw [aggRow]
    simp only [normalizeRows]
    rw [hlen]

/-- C5 counterexample: the selected-day lookup does not fail with named
NoDataAvailable / DateNotFound conditions. On a table whose only primary
timestamp value is unparseable the aggregated set is empty and the lookup
raises the generic, unnamed IndexError of `.iloc[0]`; looking up a date
string absent from a non-empty aggregated set raises the very same
unnamed IndexError, so the two conditions are neither named nor
distinguished. -/
theorem C5_counterexample :
    pipeline { cols := ["created_date"], rows := [[Cell.text "garbage"]] } 7
        (fun _ => 0) (fun _ => false) = Except.ok [] ∧
    selectedRow [] "2024-01-01" = Except.error PError.indexError ∧
    selectedRow [({ date := 0, dailyTickets := 1,
                    avgProcessingTime := some 0,
                    errorRate := 0 }, StatusLabel.onTrack)] "1" =
      Except.error PError.indexError ∧
    PError.indexError ≠ PError.missingTimestampColumn := by
  refine ⟨by decide, by rfl, by rfl, by decide⟩

/-- C5 amended: when zero rows survive primary-timestamp filtering the
aggregated set is empty and the lookup raises an error, and when the
supplied date string matches no aggregated row it likewise raises an
error — in both cases the same generic IndexError, not a named
NoDataAvailable or DateNotFound condition — and it never silently
defaults: any row it returns is an aggregated row whose date matches the
request. -/
theorem C5_amended_lookup (daily : List (DailyRow × StatusLabel)) (sel : String) :
    selectedRow [] sel = Except.error PError.indexError ∧
    ((∀ r ∈ daily, dateStr r.1.date ≠ sel) →
      selectedRow daily sel = Except.error PError.indexError) ∧
    (∀ r, selectedRow daily sel = Except.ok r →
      r ∈ daily ∧ dateStr r.1.date = sel) := by
  refine ⟨by rfl, ?_, ?_⟩
  · intro h
    rw [selectedRow]
    have : daily.filter (fun r => dateStr r.1.date == sel) = [] := by
      rw [List.filter_eq_nil_iff]
      intro r hr
      simpa using h r hr
    rw [this]
  · intro r hr
    rw [selectedRow] at hr
    cases hfil : daily.filter (fun r => dateStr r.1.date == sel) with
    | nil => rw [hfil] at hr; exact absurd hr (by simp)
    | cons r0 rest =>
        rw [hfil] at hr
        simp only [Except.ok.injEq] at hr
        subst hr
        have hmem : r0 ∈ daily.filter (fun r => dateStr r.1.date == sel) := by
          rw [hfil]; simp
        rw [List.mem_filter] at hmem
        exact ⟨hmem.1, by simpa using hmem.2⟩

/-- C6: for window sizes N1 < N2 on the same raw table and the same
fallback draws, the run with window N1 yields exactly the suffix of
length min(N1, number of distinct dates) of the run with window N2. -/
theorem C6_window_monotone (t : RawTable) (rngP : Nat → ℚ) (rngE : Nat → Bool)
    (n1 n2 : Nat) (h : n1 < n2) :
    pipeline t n1 rngP rngE = Except.map (tailN n1) (pipeline t n2 rngP rngE) ∧
    (∀ dc, dateCol t = some dc →
      ∀ l1, pipeline t n1 rngP rngE = Except.ok l1 →
        l1.length = min n1 (datesOf (normalizeRows t dc rngP rngE)).length) := by
  constructor
  · cases hdc : dateCol t with
    | none => simp [pipeline, hdc, Except.map]
    | some dc =>
        simp only [pipeline, hdc, Except.map]
        rw [← tailN_map n1, ← tailN_map n2, tailN_tailN _ _ _ (Nat.le_of_lt h)]
  · intro dc hdc l1 hl1
    simp only [pipeline, hdc, Except.ok.injEq] at hl1
    rw [← hl1, List.length_map, tailN_length, ← dailyOf_map_date, List.length_map]

/-- C7: for every positive window size N the Window Selector output is
strictly ascending (hence uniquely keyed) by date, has exactly
min(N, number of distinct dates) entries, and when fewer than N distinct
dates exist it is the whole classified daily series, unpadded. -/
theorem C7_window_selector (t : RawTable) (dc : String) (rngP : Nat → ℚ)
    (rngE : Nat → Bool) (N : Nat) (hN : 0 < N)
    (hdc : dateCol t = some dc) :
    ∀ out, pipeline t N rngP rngE = Except.ok out →
      (out.map (fun r => r.1.date)).Pairwise (· < ·) ∧
      (out.map (fun r => r.1.date)).Nodup ∧
      out.length = min N (datesOf (normalizeRows t dc rngP rngE)).length ∧
      ((datesOf (normalizeRows t dc rngP rngE)).length ≤ N →
        out = (dailyOf (normalizeRows t dc rngP rngE)).map
          (fun r => (r, classify r))) := by
  intro out hout
  simp only [pipeline, hdc, Except.ok.injEq] at hout
  have hmapdate : out.map (fun r => r.1.date) =
      tailN N (datesOf (normalizeRows t dc rngP rngE)) := by
    rw [← hout, List.map_map]
    have : ((fun (r : DailyRow × StatusLabel) => r.1.date) ∘
        (fun r => (r, classify r))) = (fun (r : DailyRow) => r.date) := rfl
    rw [this, ← tailN_map, dailyOf_map_date]
  have hpw : (out.map (fun r => r.1.date)).Pairwise (· < ·) := by
    rw [hmapdate]
    exact (datesOf_pairwise _).sublist (tailN_sublist _ _)
  refine ⟨hpw, ?_, ?_, ?_⟩
  · exact hpw.imp ne_of_lt
  · rw [← hout, List.length_map, tailN_length, ← dailyOf_map_date, List.length_map]
  · intro hle
    rw [← hout]
    rw [tailN_all]
    rw [← dailyOf_map_date, List.length_map] at hle
    exact hle

/-- C8: when a status column exists, every normalized row's error flag is
computed by `statusErr` on that row's status cell, and `statusErr` is true
on a string exactly when its lower-casing is exactly "open" or exactly
"pending"; every non-string cell yields false. -/
theorem C8_is_error_flag (t : RawTable) (dc : String)
    (rngP : Nat → ℚ) (rngE : Nat → Bool)
    (hst : t.cols.contains "status" = true) :
    (∀ nr ∈ normalizeRows t dc rngP rngE,
      ∃ row ∈ t.rows, nr.isError = statusErr (getCell t.cols row "status")) ∧
    (∀ s : String, statusErr (Cell.text s) = true ↔
      (lowerStr s = "open" ∨ lowerStr s = "pending")) ∧
    (∀ c : Cell, (∀ s, c ≠ Cell.text s) → statusErr c = false) := by
  refine ⟨?_, ?_, ?_⟩
  · intro nr hnr
    rw [normalizeRows] at hnr
    rcases mem_normFrom _ _ _ _ _ _ hnr with ⟨j, p, hp, he⟩
    refine ⟨p.1, (mem_parsedRows _ _ _ hp).1, ?_⟩
    rw [he]
    have hst2 : "status" ∈ t.cols := by simpa using hst
    simp [mkNorm, hst2]
  · intro s
    simp [statusErr, List.contains]
  · intro c hc
    cases c with
    | ts v => rfl
    | text s => exact absurd rfl (hc s)
    | blank => rfl

theorem datesOf_congr (rows1 rows2 : List NormRow)
    (h : rows1.map (fun r => r.eventDate) = rows2.map (fun r => r.eventDate)) :
    datesOf rows1 = datesOf rows2 := by
  have e1 : datesOf rows1 =
      (rows1.map (fun r => r.eventDate)).foldl (fun acc d => insertDate d acc) [] := by
    rw [datesOf, List.foldl_map]
  have e2 : datesOf rows2 =
      (rows2.map (fun r => r.eventDate)).foldl (fun acc d => insertDate d acc) [] := by
    rw [datesOf, List.foldl_map]
  rw [e1, e2, h]

/-- C9: two pipeline runs on the same raw table and window always agree on
every output day's date and ticket count whatever the fallback draws; and
when both a `resolved_date` column and a `status` column are present the
fallback draws are never consulted and the runs' outputs are identical in
every field, including average processing time, error rate, and status. -/
theorem C9_determinism (t : RawTable) (n : Nat)
    (rngP1 rngP2 : Nat → ℚ) (rngE1 rngE2 : Nat → Bool) :
    (Except.map (List.map (fun pr => (pr.1.date, pr.1.dailyTickets)))
        (pipeline t n rngP1 rngE1) =
      Except.map (List.map (fun pr => (pr.1.date, pr.1.dailyTickets)))
        (pipeline t n rngP2 rngE2)) ∧
    (t.cols.contains "resolved_date" = true → t.cols.contains "status" = true →
      pipeline t n rngP1 rngE1 = pipeline t n rngP2 rngE2) := by
  constructor
  · cases hdc : dateCol t with
    | none => simp [pipeline, hdc]
    | some dc =>
        have hdates : datesOf (normalizeRows t dc rngP1 rngE1) =
            datesOf (normalizeRows t dc rngP2 rngE2) := by
          apply datesOf_congr
          rw [normalizeRows, normalizeRows, normFrom_map_eventDate,
            normFrom_map_eventDate]
        have hmap : (dailyOf (normalizeRows t dc rngP1 rngE1)).map
              (fun r => (r.date, r.dailyTickets)) =
            (dailyOf (normalizeRows t dc rngP2 rngE2)).map
              (fun r => (r.date, r.dailyTickets)) := by
          rw [dailyOf, dailyOf, List.map_map, List.map_map, hdates]
          apply List.map_congr_left
          intro d _
          show (d, ((normalizeRows t dc rngP1 rngE1).filter
              (fun r => r.eventDate == d)).length) =
            (d, ((normalizeRows t dc rngP2 rngE2).filter
              (fun r => r.eventDate == d)).length)
          simp only [normalizeRows]
          rw [normFrom_filter_length, normFrom_filter_length]
        have hcomp : ((fun pr : DailyRow × StatusLabel =>
              (pr.1.date, pr.1.dailyTickets)) ∘ (fun r => (r, classify r))) =
            (fun r : DailyRow => (r.date, r.dailyTickets)) := rfl
        simp only [pipeline, hdc, Except.map, List.map_map, hcomp]
        rw [← tailN_map n, ← tailN_map n, hmap]
  · intro hres hst
    cases hdc : dateCol t with
    | none => simp [pipeline, hdc]
    | some dc =>
        have hnorm : normalizeRows t dc rngP1 rngE1 =
            normalizeRows t dc rngP2 rngE2 := by
          rw [normalizeRows, normalizeRows]
          exact normFrom_rng_irrelevant t.cols rngP1 rngP2 rngE1 rngE2 0 0 _ hres hst
        simp [pipeline, hdc, hnorm]

theorem filterMap_procTime_zero (g : List NormRow)
    (h : ∀ r ∈ g, r.procTime = some 0) :
    g.filterMap (fun r => r.procTime) = List.replicate g.length (0 : ℚ) := by
  induction g with
  | nil => rfl
  | cons r rest ih =>
      rw [List.filterMap_cons, h r (by simp)]
      simp only [List.length_cons, List.replicate_succ]
      rw [ih (fun x hx => h x (by simp [hx]))]

theorem meanOpt_replicate_zero (k : Nat) (hk : k ≠ 0) :
    meanOpt (List.replicate k (0 : ℚ)) = some 0 := by
  cases k with
  | zero => exact absurd rfl hk
  | succ m =>
      rw [meanOpt]
      simp [List.sum_replicate]

/-- C10: when the first "date"-containing column is exactly
`resolved_date`, the primary and secondary timestamp columns coincide, so
every surviving row's processing time is 0 minutes and every output day's
average processing time is 0. -/
theorem C10_resolved_as_primary (t : RawTable) (rngP : Nat → ℚ)
    (rngE : Nat → Bool)
    (hdc : dateCol t = some "resolved_date") :
    (∀ nr ∈ normalizeRows t "resolved_date" rngP rngE, nr.procTime = some 0) ∧
    (∀ dr ∈ dailyOf (normalizeRows t "resolved_date" rngP rngE),
      dr.avgProcessingTime = some 0) := by
  have hdc2 : t.cols.find? containsDate = some "resolved_date" := hdc
  have hres : t.cols.contains "resolved_date" = true := by
    simpa using List.mem_of_find?_eq_some hdc2
  have hall : ∀ nr ∈ normalizeRows t "resolved_date" rngP rngE,
      nr.procTime = some 0 := by
    intro nr hnr
    rw [normalizeRows] at hnr
    rcases mem_normFrom _ _ _ _ _ _ hnr with ⟨j, p, hp, he⟩
    have hparse := (mem_parsedRows _ _ _ hp).2
    rw [he]
    have hres2 : "resolved_date" ∈ t.cols := by simpa using hres
    simp [mkNorm, hres2, diffOf, hparse]
  refine ⟨hall, ?_⟩
  intro dr hdr
  rcases mem_dailyOf _ _ hdr with ⟨hagg, hdmem⟩
  rw [mem_datesOf] at hdmem
  rcases hdmem with ⟨r0, hr0, hr0d⟩
  have hr0g : r0 ∈ (normalizeRows t "resolved_date" rngP rngE).filter
      (fun r => r.eventDate == dr.date) := by
    rw [List.mem_filter]
    exact ⟨hr0, by simp [hr0d]⟩
  have hlen : ((normalizeRows t "resolved_date" rngP rngE).filter
      (fun r => r.eventDate == dr.date)).length ≠ 0 := by
    intro h0
    rw [List.length_eq_zero] at h0
    rw [h0] at hr0g
    simp at hr0g
  conv_lhs => rw [hagg]
  rw [aggRow]
  rw [filterMap_procTime_zero _ (fun r hr => hall r (List.mem_of_mem_filter hr))]
  exact meanOpt_replicate_zero _ hlen

/-! ### Concrete witnesses -/

/-- A concrete raw table exercising every path: a 6-minute resolution, an
inverted (negative) resolution, an unparseable secondary timestamp, and a
row with an unparseable primary timestamp. -/
def wT : RawTable :=
  { cols := ["created_date", "resolved_date", "status"]
    rows := [ [Cell.ts 0, Cell.ts 360, Cell.text "Resolved"]
            , [Cell.ts 600, Cell.ts 240, Cell.text "Open"]
            , [Cell.ts 86400, Cell.blank, Cell.text "Pending"]
            , [Cell.text "junk", Cell.ts 100, Cell.text "Open"] ] }

/-- A fixed stand-in for the uniform fallback draws. -/
def wP : Nat → ℚ := fun _ => 0

/-- A fixed stand-in for the Bernoulli fallback draws. -/
def wE : Nat → Bool := fun _ => false

/-- The second aggregated day of `wT` (one ticket, all-NaN processing
column, 100% error rate). -/
def wRow : DailyRow := aggRow (normalizeRows wT "created_date" wP wE) 1

/-- The classified window output of `wT` at window size 7. -/
def wOut : List (DailyRow × StatusLabel) :=
  (tailN 7 (dailyOf (normalizeRows wT "created_date" wP wE))).map
    (fun r => (r, classify r))

/-- The raw table of `wT3a` with its unparseable-primary row deleted. -/
def wT3b : RawTable :=
  { cols := ["created_date"], rows := [[Cell.ts 0], [Cell.ts 86400]] }

/-- A one-column raw table whose middle row's primary timestamp does not
parse. -/
def wT3a : RawTable :=
  { cols := ["created_date"]
    rows := [[Cell.ts 0], [Cell.text "junk"], [Cell.ts 86400]] }

theorem C3_unparseable_rows_excluded_witness :
    normalizeRows wT3a "created_date" wP wE =
      normalizeRows wT3b "created_date" wP wE ∧
    pipeline wT3a 7 wP wE = pipeline wT3b 7 wP wE ∧
    (∀ nr ∈ normalizeRows wT3a "created_date" wP wE,
      ∃ row ∈ wT3a.rows,
        ∃ ts2, parseTs (getCell ["created_date"] row "created_date") = some ts2 ∧
          nr.eventDate = dayOf ts2) :=
  C3_unparseable_rows_excluded ["created_date"] "created_date"
    [[Cell.ts 0]] [[Cell.ts 86400]] [Cell.text "junk"] 7 wP wE
    (by decide) (by decide)

theorem C4_secondary_timestamp_policy_witness :
    wRow.dailyTickets =
      ((parsedRows wT "created_date").filter
        (fun p => dayOf p.2 == wRow.date)).length ∧
    wRow.avgProcessingTime =
      meanOpt (((parsedRows wT "created_date").filter
        (fun p => dayOf p.2 == wRow.date)).filterMap
          (fun p => diffOf wT.cols p.1 p.2)) ∧
    wRow.errorRate =
      ((((normalizeRows wT "created_date" wP wE).filter
          (fun r => r.eventDate == wRow.date)).countP (fun r => r.isError) : ℚ) /
        (((parsedRows wT "created_date").filter
          (fun p => dayOf p.2 == wRow.date)).length : ℚ)) * 100 :=
  C4_secondary_timestamp_policy wT "created_date" wP wE (by decide) (by decide)
    wRow (List.mem_map_of_mem (aggRow (normalizeRows wT "created_date" wP wE))
      (by decide))

theorem C6_window_monotone_witness :
    pipeline wT 1 wP wE = Except.map (tailN 1) (pipeline wT 2 wP wE) ∧
    (∀ dc, dateCol wT = some dc →
      ∀ l1, pipeline wT 1 wP wE = Except.ok l1 →
        l1.length = min 1 (datesOf (normalizeRows wT dc wP wE)).length) :=
  C6_window_monotone wT wP wE 1 2 (by decide)

theorem C7_window_selector_witness :
    (wOut.map (fun r => r.1.date)).Pairwise (· < ·) ∧
    (wOut.map (fun r => r.1.date)).Nodup ∧
    wOut.length = min 7 (datesOf (normalizeRows wT "created_date" wP wE)).length ∧
    ((datesOf (normalizeRows wT "created_date" wP wE)).length ≤ 7 →
      wOut = (dailyOf (normalizeRows wT "created_date" wP wE)).map
        (fun r => (r, classify r))) :=
  C7_window_selector wT "created_date" wP wE 7 (by decide) (by decide) wOut
    (by
      simp only [pipeline, show dateCol wT = some "created_date" by decide]
      rfl)

theorem C8_is_error_flag_witness :
    (∀ nr ∈ normalizeRows wT "created_date" wP wE,
      ∃ row ∈ wT.rows, nr.isError = statusErr (getCell wT.cols row "status")) ∧
    (∀ s : String, statusErr (Cell.text s) = true ↔
      (lowerStr s = "open" ∨ lowerStr s = "pending")) ∧
    (∀ c : Cell, (∀ s, c ≠ Cell.text s) → statusErr c = false) :=
  C8_is_error_flag wT "created_date" wP wE (by decide)

/-- A raw table whose first "date"-containing column is `resolved_date`. -/
def wT10 : RawTable :=
  { cols := ["resolved_date", "status"]
    rows := [ [Cell.ts 120, Cell.text "Open"]
            , [Cell.ts 86460, Cell.text "Resolved"] ] }

theorem C10_resolved_as_primary_witness :
    (∀ nr ∈ normalizeRows wT10 "resolved_date" wP wE, nr.procTime = some 0) ∧
    (∀ dr ∈ dailyOf (normalizeRows wT10 "resolved_date" wP wE),
      dr.avgProcessingTime = some 0) :=
  C10_resolved_as_primary wT10 wP wE (by decide)
